import Mathlib

/-!
Verification of the string-analyzer service (`main.go`) against its
natural-language specification.

The Go source is shallowly embedded: Go strings are modelled as `List Char`
(Go iterates strings rune by rune, and Lean `Char` coincides with Go's
`rune` scalar values), Go `int` values that can be negative are modelled as
`Int`, counts as `Nat`, Go maps as association lists with the usual
insert/replace semantics, and fallible operations return `Except`/`Option`.
The character-classification and case-mapping helpers from Go's `unicode`
and `strings` packages are modelled on the ASCII fragment of the Unicode
tables (identity / `false` outside ASCII), which covers every literal the
service's rules and the specification's examples use.
-/

set_option maxRecDepth 100000

namespace StringAnalyzer

/-- Models Go `unicode.IsLetter` on the ASCII fragment of the Unicode tables:
true exactly for `a`-`z` and `A`-`Z`. -/
def unicodeIsLetter (c : Char) : Bool :=
  (97 ≤ c.toNat && c.toNat ≤ 122) || (65 ≤ c.toNat && c.toNat ≤ 90)

/-- Models Go `unicode.IsNumber` on the ASCII fragment: true exactly for
the decimal digits `0`-`9`. -/
def unicodeIsNumber (c : Char) : Bool :=
  48 ≤ c.toNat && c.toNat ≤ 57

/-- The character class kept by the palindrome check: letters or numbers. -/
def isAlnum (c : Char) : Bool :=
  unicodeIsLetter c || unicodeIsNumber c

/-- Models Go `strings.ToLower` at the level of a single rune, on the ASCII
fragment of the Unicode case tables: maps `A`-`Z` to `a`-`z` and leaves
every other character unchanged. -/
def goToLower (c : Char) : Char :=
  if 65 ≤ c.toNat && c.toNat ≤ 90 then Char.ofNat (c.toNat + 32) else c

/-- Models Go `strings.ToLower` on a whole string. -/
def stringsToLower (s : List Char) : List Char :=
  s.map goToLower

theorem toNat_ofNat_valid (n : Nat) (h : Nat.isValidChar n) :
    (Char.ofNat n).toNat = n := by
  unfold Char.ofNat
  rw [dif_pos h]
  rfl

theorem toNat_goToLower_upper (c : Char) (h : 65 ≤ c.toNat ∧ c.toNat ≤ 90) :
    (goToLower c).toNat = c.toNat + 32 := by
  unfold goToLower
  rw [if_pos (by simp [h.1, h.2])]
  exact toNat_ofNat_valid _ (Or.inl (by omega))

theorem goToLower_eq_of_not_upper (c : Char) (h : ¬(65 ≤ c.toNat ∧ c.toNat ≤ 90)) :
    goToLower c = c := by
  unfold goToLower
  rw [if_neg (by simpa [Bool.and_eq_true, decide_eq_true_eq] using h)]

/-- Lower-casing is idempotent (rune level). -/
theorem goToLower_goToLower (c : Char) : goToLower (goToLower c) = goToLower c := by
  by_cases h : 65 ≤ c.toNat ∧ c.toNat ≤ 90
  · have h1 := toNat_goToLower_upper c h
    have : ¬(65 ≤ (goToLower c).toNat ∧ (goToLower c).toNat ≤ 90) := by omega
    exact goToLower_eq_of_not_upper _ this
  · rw [goToLower_eq_of_not_upper c h]
    exact goToLower_eq_of_not_upper c h

/-- Lower-casing preserves the letter-or-number character class. -/
theorem isAlnum_goToLower (c : Char) : isAlnum (goToLower c) = isAlnum c := by
  by_cases h : 65 ≤ c.toNat ∧ c.toNat ≤ 90
  · have h1 := toNat_goToLower_upper c h
    simp only [isAlnum, unicodeIsLetter, unicodeIsNumber, h1]
    rw [Bool.eq_iff_iff]
    simp only [Bool.or_eq_true, Bool.and_eq_true, decide_eq_true_eq]
    omega
  · rw [goToLower_eq_of_not_upper c h]

/-- Models `calculateLength` (`main.go` line 70): `len([]rune(s))`, the
number of runes in the string. -/
def calculateLength (s : List Char) : Nat :=
  s.length

/-- The two-pointer comparison loop of `isPalindrome` (`main.go` lines
83-88): indices `i` and `j` walk inwards and any mismatch returns false.
The loop runs at most `j - i` times, so any fuel of at least that size
makes the recursion structural without changing the computed value. -/
def palAux (l : List Char) : Nat → Nat → Nat → Bool
  | 0, _, _ => true
  | fuel + 1, i, j =>
    if i < j then
      if l.getD i ' ' ≠ l.getD j ' ' then false
      else palAux l fuel (i + 1) (j - 1)
    else true

/-- Models `isPalindrome` (`main.go` lines 75-89): lower-case the string,
keep only letters and numbers, then run the two-pointer comparison loop. -/
def isPalindrome (s : List Char) : Bool :=
  let filteredRunes := (stringsToLower s).filter isAlnum
  palAux filteredRunes filteredRunes.length 0 (filteredRunes.length - 1)

/-- Models `countUniqueCharacters` (`main.go` lines 92-98): the number of
distinct runes (the size of the `seen` set built rune by rune). -/
def countUniqueCharacters (s : List Char) : Nat :=
  (s.foldl (fun seen c => if c ∈ seen then seen else c :: seen) []).length

/-- Models Go `unicode.IsSpace` on the ASCII fragment (the class used by
`strings.TrimSpace`): space, `\t`, `\n`, `\v`, `\f`, `\r`. -/
def unicodeIsSpace (c : Char) : Bool :=
  c = ' ' || c = '\t' || c = '\n' || c = '\x0b' || c = '\x0c' || c = '\r'

/-- Go's regexp `\s` class, used by the `\s+` split in `countWords`:
`[\t\n\f\r ]` — note it does *not* contain `\v`, unlike `unicode.IsSpace`. -/
def isRegexSpace (c : Char) : Bool :=
  c = ' ' || c = '\t' || c = '\n' || c = '\x0c' || c = '\r'

/-- Models `strings.TrimSpace`: drop `unicode.IsSpace` runes from both
ends. -/
def trimSpace (s : List Char) : List Char :=
  ((s.dropWhile unicodeIsSpace).reverse.dropWhile unicodeIsSpace).reverse

/-- Helper for `countWords`: counts maximal runs of non-`\s` runes (the
non-empty tokens of the `\s+` split); the flag records whether the
previous rune was inside a word. -/
def countWordsAux : List Char → Bool → Nat
  | [], _ => 0
  | c :: rest, inWord =>
    if isRegexSpace c then countWordsAux rest false
    else (if inWord then 0 else 1) + countWordsAux rest true

/-- Models `countWords` (`main.go` lines 101-114): 0 for the empty string,
else trim with `TrimSpace`, split on runs of `\s`, count the non-empty
tokens — equivalently, count the maximal non-`\s` runs of the trimmed
string. -/
def countWords (s : List Char) : Nat :=
  if s = [] then 0 else countWordsAux (trimSpace s) false

/-! ### SHA-256

`generateSHA256Hash` (`main.go` lines 117-121) feeds the raw UTF-8 bytes of
the string through `crypto/sha256` and hex-encodes the digest in lowercase.
The full FIPS 180-4 algorithm is embedded below over `Nat` with explicit
reduction modulo `2^32`. -/

/-- Truncation to a 32-bit word. -/
def w32 (n : Nat) : Nat := n % 4294967296

/-- Rotates a 32-bit word right by `n` positions. -/
def rotr32 (x n : Nat) : Nat := w32 ((x >>> n) ||| (x <<< (32 - n)))

/-- UTF-8 encoding of one scalar value (Go strings are UTF-8 and the hash
is taken over the raw bytes). -/
def charUtf8 (c : Char) : List Nat :=
  let n := c.toNat
  if n < 128 then [n]
  else if n < 2048 then [192 ||| (n >>> 6), 128 ||| (n &&& 63)]
  else if n < 65536 then
    [224 ||| (n >>> 12), 128 ||| ((n >>> 6) &&& 63), 128 ||| (n &&& 63)]
  else
    [240 ||| (n >>> 18), 128 ||| ((n >>> 12) &&& 63),
     128 ||| ((n >>> 6) &&& 63), 128 ||| (n &&& 63)]

/-- UTF-8 byte sequence of a whole string. -/
def utf8Bytes (s : List Char) : List Nat :=
  s.foldr (fun c acc => charUtf8 c ++ acc) []

/-- Big-endian 8-byte encoding of the bit length, for the SHA-256 padding. -/
def be64 (n : Nat) : List Nat :=
  [(n >>> 56) &&& 255, (n >>> 48) &&& 255, (n >>> 40) &&& 255,
   (n >>> 32) &&& 255, (n >>> 24) &&& 255, (n >>> 16) &&& 255,
   (n >>> 8) &&& 255, n &&& 255]

/-- SHA-256 padding: append `0x80`, zero bytes up to 56 mod 64, then the
message bit length in big-endian. -/
def padMessage (msg : List Nat) : List Nat :=
  let padZeros := (64 + 56 - ((msg.length + 1) % 64)) % 64
  msg ++ [128] ++ List.replicate padZeros 0 ++ be64 (msg.length * 8)

/-- Splits the padded byte stream into 64-byte blocks (fuel-based so that
the recursion is structural; the fuel is the list length, which bounds the
number of blocks). -/
def chunks64Aux : Nat → List Nat → List (List Nat)
  | 0, _ => []
  | _, [] => []
  | fuel + 1, x :: rest =>
    (x :: rest).take 64 :: chunks64Aux fuel ((x :: rest).drop 64)

/-- Splits the padded byte stream into 64-byte blocks. -/
def chunks64 (l : List Nat) : List (List Nat) :=
  chunks64Aux l.length l

/-- Packs four big-endian bytes at a time into 32-bit words. -/
def bytesToWords : List Nat → List Nat
  | b0 :: b1 :: b2 :: b3 :: rest =>
    (((b0 <<< 8 ||| b1) <<< 8 ||| b2) <<< 8 ||| b3) :: bytesToWords rest
  | _ => []

/-- FIPS 180-4 sigma-0 (message schedule). -/
def smallSigma0 (x : Nat) : Nat := rotr32 x 7 ^^^ rotr32 x 18 ^^^ (x >>> 3)

/-- FIPS 180-4 sigma-1 (message schedule). -/
def smallSigma1 (x : Nat) : Nat := rotr32 x 17 ^^^ rotr32 x 19 ^^^ (x >>> 10)

/-- FIPS 180-4 Sigma-0 (compression). -/
def bigSigma0 (x : Nat) : Nat := rotr32 x 2 ^^^ rotr32 x 13 ^^^ rotr32 x 22

/-- FIPS 180-4 Sigma-1 (compression). -/
def bigSigma1 (x : Nat) : Nat := rotr32 x 6 ^^^ rotr32 x 11 ^^^ rotr32 x 25

/-- Extends the 16 block words to the 64-word message schedule (48 steps). -/
def extendSchedule (w : List Nat) : Nat → List Nat
  | 0 => w
  | fuel + 1 =>
    let i := w.length
    let nw := w32 (smallSigma1 (w.getD (i - 2) 0) + w.getD (i - 7) 0 +
      smallSigma0 (w.getD (i - 15) 0) + w.getD (i - 16) 0)
    extendSchedule (w ++ [nw]) fuel

/-- The eight 32-bit working variables of the compression function. -/
structure SHAState where
  a : Nat
  b : Nat
  c : Nat
  d : Nat
  e : Nat
  f : Nat
  g : Nat
  h : Nat
deriving DecidableEq

/-- FIPS 180-4 Ch function (bitwise not taken as xor with the 32-bit mask). -/
def chExpr (x y z : Nat) : Nat := (x &&& y) ^^^ ((x ^^^ 4294967295) &&& z)

/-- FIPS 180-4 Maj function. -/
def majExpr (x y z : Nat) : Nat := (x &&& y) ^^^ (x &&& z) ^^^ (y &&& z)

/-- The 64 SHA-256 round constants (decimal rendering of the FIPS 180-4
table). -/
def K256 : List Nat :=
  [1116352408, 1899447441, 3049323471, 3921009573, 961987163,
   1508970993, 2453635748, 2870763221, 3624381080, 310598401,
   607225278, 1426881987, 1925078388, 2162078206, 2614888103,
   3248222580, 3835390401, 4022224774, 264347078, 604807628,
   770255983, 1249150122, 1555081692, 1996064986, 2554220882,
   2821834349, 2952996808, 3210313671, 3336571891, 3584528711,
   113926993, 338241895, 666307205, 773529912, 1294757372,
   1396182291, 1695183700, 1986661051, 2177026350, 2456956037,
   2730485921, 2820302411, 3259730800, 3345764771, 3516065817,
   3600352804, 4094571909, 275423344, 430227734, 506948616,
   659060556, 883997877, 958139571, 1322822218, 1537002063,
   1747873779, 1955562222, 2024104815, 2227730452, 2361852424,
   2428436474, 2756734187, 3204031479, 3329325298]

/-- The SHA-256 initial hash value (decimal rendering). -/
def initState : SHAState :=
  ⟨1779033703, 3144134277, 1013904242, 2773480762,
   1359893119, 2600822924, 528734635, 1541459225⟩

/-- One round of the SHA-256 compression function. -/
def roundStep (st : SHAState) (kw : Nat × Nat) : SHAState :=
  let t1 := w32 (st.h + bigSigma1 st.e + chExpr st.e st.f st.g + kw.1 + kw.2)
  let t2 := w32 (bigSigma0 st.a + majExpr st.a st.b st.c)
  ⟨w32 (t1 + t2), st.a, st.b, st.c, w32 (st.d + t1), st.e, st.f, st.g⟩

/-- Processes one 64-byte block: schedule expansion, 64 rounds, feed-forward. -/
def compressBlock (st : SHAState) (block : List Nat) : SHAState :=
  let ws := extendSchedule (bytesToWords block) 48
  let r := (K256.zip ws).foldl roundStep st
  ⟨w32 (st.a + r.a), w32 (st.b + r.b), w32 (st.c + r.c), w32 (st.d + r.d),
   w32 (st.e + r.e), w32 (st.f + r.f), w32 (st.g + r.g), w32 (st.h + r.h)⟩

/-- One lowercase hexadecimal digit. -/
def hexDigit (n : Nat) : Char :=
  if n < 10 then Char.ofNat (48 + n) else Char.ofNat (87 + n)

/-- Lowercase hexadecimal rendering of one 32-bit word (8 digits). -/
def toHex8 (n : Nat) : List Char :=
  [hexDigit ((n >>> 28) &&& 15), hexDigit ((n >>> 24) &&& 15),
   hexDigit ((n >>> 20) &&& 15), hexDigit ((n >>> 16) &&& 15),
   hexDigit ((n >>> 12) &&& 15), hexDigit ((n >>> 8) &&& 15),
   hexDigit ((n >>> 4) &&& 15), hexDigit (n &&& 15)]

/-- Models `generateSHA256Hash` (`main.go` lines 117-121): SHA-256 over the
string's raw bytes, rendered as 64 lowercase hex characters. -/
def generateSHA256Hash (s : List Char) : List Char :=
  let st := (chunks64 (padMessage (utf8Bytes s))).foldl compressBlock initState
  toHex8 st.a ++ toHex8 st.b ++ toHex8 st.c ++ toHex8 st.d ++
  toHex8 st.e ++ toHex8 st.f ++ toHex8 st.g ++ toHex8 st.h

/-! ### Character frequency map and the analyzer record -/

/-- Generic association-list lookup, modelling Go map indexing
(`m[k]` with the `, ok` form). -/
def mapLookup {α β : Type} [DecidableEq α] : List (α × β) → α → Option β
  | [], _ => none
  | (k, v) :: rest, key => if k = key then some v else mapLookup rest key

/-- Generic association-list insert, modelling Go map assignment
(`m[k] = v`): replaces the value if the key is present, appends otherwise. -/
def mapInsert {α β : Type} [DecidableEq α] : List (α × β) → α → β → List (α × β)
  | [], key, v => [(key, v)]
  | (k, w) :: rest, key, v =>
    if k = key then (key, v) :: rest else (k, w) :: mapInsert rest key v

/-- Generic association-list erase, modelling Go `delete(m, k)` (keys are
unique in a Go map, so removing the first occurrence suffices). -/
def mapErase {α β : Type} [DecidableEq α] : List (α × β) → α → List (α × β)
  | [], _ => []
  | (k, w) :: rest, key => if k = key then rest else (k, w) :: mapErase rest key

/-- One step of `getCharacterFrequencyMap`'s loop: `freqMap[char]++`
(a missing key reads as 0 in Go, so it becomes 1). -/
def bumpCount : List (Char × Nat) → Char → List (Char × Nat)
  | [], c => [(c, 1)]
  | (k, v) :: rest, c =>
    if k = c then (k, v + 1) :: rest else (k, v) :: bumpCount rest c

/-- Models `getCharacterFrequencyMap` (`main.go` lines 124-130): one pass
over the runes, incrementing the per-rune counter. -/
def getCharacterFrequencyMap (s : List Char) : List (Char × Nat) :=
  s.foldl bumpCount []

/-- Models the `StringProperties` struct (`main.go` lines 22-29). -/
structure StringProperties where
  Length : Nat
  IsPalindrome : Bool
  UniqueCharacters : Nat
  WordCount : Nat
  SHA256Hash : List Char
  CharacterFrequencyMap : List (Char × Nat)
deriving DecidableEq

/-- Models `analyzeString` (`main.go` lines 133-143). -/
def analyzeString (value : List Char) : StringProperties :=
  let hash := generateSHA256Hash value
  { Length := calculateLength value
    IsPalindrome := isPalindrome value
    UniqueCharacters := countUniqueCharacters value
    WordCount := countWords value
    SHA256Hash := hash
    CharacterFrequencyMap := getCharacterFrequencyMap value }

/-- Models the `AnalyzedString` struct (`main.go` lines 32-37); the
creation time is abstracted to a `Nat` supplied by the caller (the code
reads `time.Now().UTC()`). -/
structure AnalyzedString where
  ID : List Char
  Value : List Char
  Properties : StringProperties
  CreatedAt : Nat
deriving DecidableEq

/-- The in-memory store (`stringStore`, `main.go` line 41): a map from the
hash key to the record, modelled as an association list. -/
abbrev Store : Type := List (List Char × AnalyzedString)

/-! ### Store handlers -/

/-- Outcome of `CreateStringHandler` past JSON binding: either the 409
duplicate rejection or the 201 creation carrying the new record. -/
inductive CreateResult where
  | conflict : CreateResult
  | created : AnalyzedString → CreateResult
deriving DecidableEq

/-- The record `CreateStringHandler` builds for a fresh value. -/
def newAnalyzedString (now : Nat) (value : List Char) : AnalyzedString :=
  let properties := analyzeString value
  { ID := properties.SHA256Hash
    Value := value
    Properties := properties
    CreatedAt := now }

/-- Models the core of `CreateStringHandler` (`main.go` lines 163-185):
hash the value, reject when the hash is already a key, otherwise analyze
and insert under the new record's `ID`. -/
def CreateStringHandler (now : Nat) (store : Store) (value : List Char) :
    CreateResult × Store :=
  let existingHash := generateSHA256Hash value
  if (mapLookup store existingHash).isSome then (.conflict, store)
  else
    let r := newAnalyzedString now value
    (.created r, mapInsert store r.ID r)

/-- Models `GetSpecificStringHandler` (`main.go` lines 189-209): try the
token as a literal key first, then hash it and try again; `none` is the
404 outcome. -/
def GetSpecificStringHandler (store : Store) (stringValue : List Char) :
    Option AnalyzedString :=
  match mapLookup store stringValue with
  | some r => some r
  | none => mapLookup store (generateSHA256Hash stringValue)

/-- Models `DeleteStringHandler` (`main.go` lines 491-517): delete by the
literal key first, else by the hashed token; the flag reports whether a
deletion happened (false is the 404 outcome). -/
def DeleteStringHandler (store : Store) (stringValue : List Char) :
    Bool × Store :=
  if (mapLookup store stringValue).isSome then (true, mapErase store stringValue)
  else
    let hashedValue := generateSHA256Hash stringValue
    if (mapLookup store hashedValue).isSome then (true, mapErase store hashedValue)
    else (false, store)

/-! ### Number parsing (`strconv`) -/

/-- Go `\d` digit class. -/
def goIsDigit (c : Char) : Bool :=
  48 ≤ c.toNat && c.toNat ≤ 57

/-- Numeric value of a digit string. -/
def digitsToNat (ds : List Char) : Nat :=
  ds.foldl (fun a c => a * 10 + (c.toNat - 48)) 0

/-- Models `strconv.Atoi` applied to a capture of `\d+` (digits only, no
sign): succeeds with the value unless it overflows a 64-bit `int`, in
which case Go reports a range error and the caller sees `err != nil`. -/
def atoiDigits (ds : List Char) : Option Int :=
  let n := digitsToNat ds
  if n ≤ 9223372036854775807 then some (n : Int) else none

/-- Reduction into the two's-complement range of Go's 64-bit `int`: the
arithmetic `num + 1` / `num - 1` in the length rules wraps around at the
boundaries instead of leaving the type's range. -/
def wrapInt64 (n : Int) : Int :=
  (n + 9223372036854775808) % 18446744073709551616 - 9223372036854775808

/-- Models full `strconv.Atoi` (optional sign, at least one digit, 64-bit
range check), as used on the explicit query parameters. -/
def goAtoi (s : List Char) : Option Int :=
  match s with
  | [] => none
  | '+' :: rest =>
    if rest ≠ [] && rest.all goIsDigit then atoiDigits rest else none
  | '-' :: rest =>
    if rest ≠ [] && rest.all goIsDigit then
      (if digitsToNat rest ≤ 9223372036854775808 then some (-(digitsToNat rest : Int)) else none)
    else none
  | l =>
    if l.all goIsDigit then atoiDigits l else none

/-- Models `strconv.ParseBool`: exactly the listed spellings are accepted. -/
def goParseBool (s : List Char) : Option Bool :=
  if s ∈ ["1", "t", "T", "TRUE", "true", "True"].map String.toList then some true
  else if s ∈ ["0", "f", "F", "FALSE", "false", "False"].map String.toList then some false
  else none

/-! ### The filter value set

Go keeps both the parsed filters of the natural-language translator and
the `filters_applied` echo of the explicit handler in a
`map[string]interface{}` with the five fixed keys below; the map is
modelled as one optional field per key. -/

/-- The dynamic filter map with its five recognized keys. -/
structure ParsedFilters where
  is_palindrome : Option Bool := none
  word_count : Option Int := none
  min_length : Option Int := none
  max_length : Option Int := none
  contains_character : Option (List Char) := none
deriving DecidableEq

/-- The empty filter map. -/
def emptyFilters : ParsedFilters :=
  { }

/-- Models `len(parsedFilters)`: the number of keys present. -/
def filtersLen (f : ParsedFilters) : Nat :=
  (if f.is_palindrome.isSome then 1 else 0) +
  (if f.word_count.isSome then 1 else 0) +
  (if f.min_length.isSome then 1 else 0) +
  (if f.max_length.isSome then 1 else 0) +
  (if f.contains_character.isSome then 1 else 0)

/-- Key-membership test on a frequency map, modelling the loop over
`str.Properties.CharacterFrequencyMap` that looks for the rune. -/
def freqHasKey (m : List (Char × Nat)) (c : Char) : Bool :=
  m.any (fun kv => kv.1 = c)

/-! ### Explicit filtering (`GetFilteredStringsHandler`) -/

/-- The raw query parameters of `GET /strings`; `c.Query` yields the empty
string when a parameter is absent, and the handler treats empty exactly
like absent. -/
structure QueryParams where
  is_palindrome : List Char := []
  min_length : List Char := []
  max_length : List Char := []
  word_count : List Char := []
  contains_character : List Char := []

/-- The five 400-responses of the explicit handler, one per parameter. -/
inductive InvalidParam where
  | isPalindromeParam : InvalidParam
  | minLengthParam : InvalidParam
  | maxLengthParam : InvalidParam
  | wordCountParam : InvalidParam
  | containsCharacterParam : InvalidParam
deriving DecidableEq

/-- The `is_palindrome` check of the loop body (`main.go` lines 223-233). -/
def checkIsPalindrome (p : QueryParams) (str : AnalyzedString)
    (acc : Bool × ParsedFilters) : Except InvalidParam (Bool × ParsedFilters) :=
  if p.is_palindrome ≠ [] then
    match goParseBool p.is_palindrome with
    | none => .error .isPalindromeParam
    | some val =>
      .ok (if str.Properties.IsPalindrome ≠ val then false else acc.1,
        { acc.2 with is_palindrome := some val })
  else .ok acc

/-- The `min_length` check of the loop body (`main.go` lines 236-246). -/
def checkMinLength (p : QueryParams) (str : AnalyzedString)
    (acc : Bool × ParsedFilters) : Except InvalidParam (Bool × ParsedFilters) :=
  if p.min_length ≠ [] then
    match goAtoi p.min_length with
    | none => .error .minLengthParam
    | some val =>
      if val < 0 then .error .minLengthParam
      else .ok (if (str.Properties.Length : Int) < val then false else acc.1,
        { acc.2 with min_length := some val })
  else .ok acc

/-- The `max_length` check of the loop body (`main.go` lines 249-259). -/
def checkMaxLength (p : QueryParams) (str : AnalyzedString)
    (acc : Bool × ParsedFilters) : Except InvalidParam (Bool × ParsedFilters) :=
  if p.max_length ≠ [] then
    match goAtoi p.max_length with
    | none => .error .maxLengthParam
    | some val =>
      if val < 0 then .error .maxLengthParam
      else .ok (if (str.Properties.Length : Int) > val then false else acc.1,
        { acc.2 with max_length := some val })
  else .ok acc

/-- The `word_count` check of the loop body (`main.go` lines 262-272). -/
def checkWordCount (p : QueryParams) (str : AnalyzedString)
    (acc : Bool × ParsedFilters) : Except InvalidParam (Bool × ParsedFilters) :=
  if p.word_count ≠ [] then
    match goAtoi p.word_count with
    | none => .error .wordCountParam
    | some val =>
      if val < 0 then .error .wordCountParam
      else .ok (if (str.Properties.WordCount : Int) ≠ val then false else acc.1,
        { acc.2 with word_count := some val })
  else .ok acc

/-- The `contains_character` check of the loop body (`main.go` lines
275-292). -/
def checkContainsCharacter (p : QueryParams) (str : AnalyzedString)
    (acc : Bool × ParsedFilters) : Except InvalidParam (Bool × ParsedFilters) :=
  if p.contains_character ≠ [] then
    if p.contains_character.length ≠ 1 then .error .containsCharacterParam
    else
      let charToFind := p.contains_character.getD 0 ' '
      .ok (if !freqHasKey str.Properties.CharacterFrequencyMap charToFind
            then false else acc.1,
        { acc.2 with contains_character := some p.contains_character })
  else .ok acc

/-- One iteration of the handler's loop over the store: all five checks in
source order, starting from `match = true`. -/
def evalRecord (p : QueryParams) (str : AnalyzedString) (filters : ParsedFilters) :
    Except InvalidParam (Bool × ParsedFilters) := do
  let a1 ← checkIsPalindrome p str (true, filters)
  let a2 ← checkMinLength p str a1
  let a3 ← checkMaxLength p str a2
  let a4 ← checkWordCount p str a3
  checkContainsCharacter p str a4

/-- The loop of `GetFilteredStringsHandler`: records are visited one by
one, the `filters` map is (re)written during each iteration, and an
invalid parameter aborts with a 400 the first time it is parsed. -/
def gfLoop (p : QueryParams) :
    List AnalyzedString → List AnalyzedString → ParsedFilters →
    Except InvalidParam (List AnalyzedString × ParsedFilters)
  | [], acc, filters => .ok (acc, filters)
  | str :: rest, acc, filters =>
    match evalRecord p str filters with
    | .error e => .error e
    | .ok (m, filters') => gfLoop p rest (if m then acc ++ [str] else acc) filters'

/-- Models `GetFilteredStringsHandler` (`main.go` lines 212-304) over the
sequence of stored records; note that every parameter is parsed *inside*
the loop, so nothing at all is validated when the store is empty. -/
def GetFilteredStringsHandler (records : List AnalyzedString) (p : QueryParams) :
    Except InvalidParam (List AnalyzedString × ParsedFilters) :=
  gfLoop p records [] emptyFilters

/-! ### The natural-language translator (`ParseNaturalLanguageQuery`)

Each regular expression of the source is embedded as a direct
leftmost-match scanner: `scanFirst` tries a pattern head at every position
of the text from the left, which is exactly the semantics of
`FindStringSubmatch` for these patterns (their alternations are
prefix-free and their `\d+` is followed by a non-digit, so backtracking
never produces a different match). -/

/-- Models `strings.Contains`. -/
def strContains : List Char → List Char → Bool
  | [], pat => pat.isEmpty
  | c :: rest, pat => pat.isPrefixOf (c :: rest) || strContains rest pat

/-- Leftmost-match driver: returns the first position (scanning left to
right) at which the pattern head succeeds. -/
def scanFirst {α : Type} (f : List Char → Option α) : List Char → Option α
  | [] => f []
  | c :: rest =>
    match f (c :: rest) with
    | some a => some a
    | none => scanFirst f rest

/-- The eleven number-word alternatives of the word-count regex
`(single|one|two|three|four|five|six|seven|eight|nine|ten) word`, in
source order. -/
def numberWordList : List (List Char) :=
  ["single", "one", "two", "three", "four", "five",
   "six", "seven", "eight", "nine", "ten"].map String.toList

/-- Pattern head for the word-count-by-name regex: the first alternative
that, followed by `" word"`, is a prefix at this position. -/
def findFirstWord : List (List Char) → List Char → Option (List Char)
  | [], _ => none
  | w :: ws, l =>
    if (w ++ " word".toList).isPrefixOf l then some w else findFirstWord ws l

/-- Pattern head for `(\d+) words?`: a maximal digit run followed by
`" word"` (the trailing `s?` is optional and does not affect the capture). -/
def matchDigitsWord (l : List Char) : Option (List Char) :=
  let ds := l.takeWhile goIsDigit
  if ds.isEmpty then none
  else if (" word".toList).isPrefixOf (l.drop ds.length) then some ds else none

/-- Pattern head for `<literal>(\d+)`: the literal followed by at least one
digit; captures the maximal digit run. -/
def matchNumberAfter (lit : List Char) (l : List Char) : Option (List Char) :=
  if lit.isPrefixOf l then
    let ds := (l.drop lit.length).takeWhile goIsDigit
    if ds.isEmpty then none else some ds
  else none

/-- Pattern head for `contains the letter ([a-z])`. -/
def matchContainsLetter (l : List Char) : Option Char :=
  let lit := "contains the letter ".toList
  if lit.isPrefixOf l then
    match l.drop lit.length with
    | c :: _ => if 97 ≤ c.toNat && c.toNat ≤ 122 then some c else none
    | [] => none
  else none

instance {ε α : Type} [DecidableEq ε] [DecidableEq α] : DecidableEq (Except ε α) := fun x y =>
  match x, y with
  | .ok a, .ok b =>
    if h : a = b then .isTrue (by rw [h]) else .isFalse (fun he => h (by cases he; rfl))
  | .error a, .error b =>
    if h : a = b then .isTrue (by rw [h]) else .isFalse (fun he => h (by cases he; rfl))
  | .ok _, .error _ => .isFalse (fun he => by cases he)
  | .error _, .ok _ => .isFalse (fun he => by cases he)

/-- The failure kinds of the translator, keyed by the error messages the
source formats (the handler distinguishes them by substring). -/
inductive ParseError where
  | unsupportedWordCount : List Char → ParseError
  | conflictingFilters : ParseError
  | unparseableQuery : ParseError
deriving DecidableEq

/-- Rule 1 (`main.go` lines 312-314): the palindrome keywords. -/
def rulePalindrome (low : List Char) (f : ParsedFilters) : ParsedFilters :=
  if strContains low ("palindrome".toList) || strContains low ("palindromic".toList)
  then { f with is_palindrome := some true } else f

/-- Rules 2-3 (`main.go` lines 317-342): word count by number word (the
`switch` recognizes only `single`/`one` through `five`; any other matched
alternative falls to the `default` failure), else word count by digits. -/
def ruleWordCount (low : List Char) (f : ParsedFilters) :
    Except ParseError ParsedFilters :=
  match scanFirst (findFirstWord numberWordList) low with
  | some w =>
    if w = "single".toList ∨ w = "one".toList then
      .ok { f with word_count := some 1 }
    else if w = "two".toList then .ok { f with word_count := some 2 }
    else if w = "three".toList then .ok { f with word_count := some 3 }
    else if w = "four".toList then .ok { f with word_count := some 4 }
    else if w = "five".toList then .ok { f with word_count := some 5 }
    else .error (.unsupportedWordCount w)
  | none =>
    match scanFirst matchDigitsWord low with
    | some ds =>
      match atoiDigits ds with
      | some num => .ok { f with word_count := some num }
      | none => .ok f
    | none => .ok f

/-- Rule 4 (`main.go` lines 345-355): `longer than (\d+)` sets
`min_length = N + 1` (Go `int` arithmetic, wrapping at MaxInt64) after
the (unreachable in a single run) conflict check against an existing
larger `min_length`. -/
def ruleLongerThan (low : List Char) (f : ParsedFilters) :
    Except ParseError ParsedFilters :=
  match scanFirst (matchNumberAfter ("longer than ".toList)) low with
  | some ds =>
    match atoiDigits ds with
    | some num =>
      match f.min_length with
      | some existingMin =>
        if existingMin > wrapInt64 (num + 1) then .error .conflictingFilters
        else .ok { f with min_length := some (wrapInt64 (num + 1)) }
      | none => .ok { f with min_length := some (wrapInt64 (num + 1)) }
    | none => .ok f
  | none => .ok f

/-- Rule 5 (`main.go` lines 357-367): `shorter than (\d+)` sets
`max_length = N - 1` (Go `int` arithmetic), symmetrically to rule 4. -/
def ruleShorterThan (low : List Char) (f : ParsedFilters) :
    Except ParseError ParsedFilters :=
  match scanFirst (matchNumberAfter ("shorter than ".toList)) low with
  | some ds =>
    match atoiDigits ds with
    | some num =>
      match f.max_length with
      | some existingMax =>
        if existingMax < wrapInt64 (num - 1) then .error .conflictingFilters
        else .ok { f with max_length := some (wrapInt64 (num - 1)) }
      | none => .ok { f with max_length := some (wrapInt64 (num - 1)) }
    | none => .ok f
  | none => .ok f

/-- Rule 6 (`main.go` lines 369-383): `exactly (\d+)` pins both bounds to
`N` after checking them against previously set bounds. -/
def ruleExactly (low : List Char) (f : ParsedFilters) :
    Except ParseError ParsedFilters :=
  match scanFirst (matchNumberAfter ("exactly ".toList)) low with
  | some ds =>
    match atoiDigits ds with
    | some num =>
      let minConflict := match f.min_length with
        | some existingMin => decide (existingMin > num)
        | none => false
      let maxConflict := match f.max_length with
        | some existingMax => decide (existingMax < num)
        | none => false
      if minConflict then .error .conflictingFilters
      else if maxConflict then .error .conflictingFilters
      else .ok { f with min_length := some num, max_length := some num }
    | none => .ok f
  | none => .ok f

/-- Rule 7 (`main.go` lines 386-393): `contains the letter ([a-z])`, else
the literal phrase `contains the first vowel` meaning the letter `a`. -/
def ruleContainsChar (low : List Char) (f : ParsedFilters) : ParsedFilters :=
  match scanFirst matchContainsLetter low with
  | some c => { f with contains_character := some [c] }
  | none =>
    if strContains low ("contains the first vowel".toList) then
      { f with contains_character := some ['a'] }
    else f

/-- The rule pipeline of `ParseNaturalLanguageQuery` up to (and not
including) the final consistency and emptiness checks, in source order. -/
def applyRules (low : List Char) : Except ParseError ParsedFilters := do
  let f1 := rulePalindrome low emptyFilters
  let f2 ← ruleWordCount low f1
  let f3 ← ruleLongerThan low f2
  let f4 ← ruleShorterThan low f3
  let f5 ← ruleExactly low f4
  .ok (ruleContainsChar low f5)

/-- Whether both bounds are present with `min_length > max_length`
(`main.go` lines 396-402). -/
def minMaxConflict (f : ParsedFilters) : Bool :=
  match f.min_length, f.max_length with
  | some minLen, some maxLen => minLen > maxLen
  | _, _ => false

/-- The checks run once after all rules (`main.go` lines 395-406):
conflicting bounds, then the empty-result failure. -/
def finalCheck (f : ParsedFilters) : Except ParseError ParsedFilters :=
  if minMaxConflict f then .error .conflictingFilters
  else if filtersLen f = 0 then .error .unparseableQuery
  else .ok f

/-- Models `ParseNaturalLanguageQuery` (`main.go` lines 307-409): all
rules run on the lower-cased query, then the final checks. -/
def ParseNaturalLanguageQuery (query : List Char) :
    Except ParseError ParsedFilters :=
  let lowerQuery := stringsToLower query
  match applyRules lowerQuery with
  | .error e => .error e
  | .ok f => finalCheck f

/-! ### Interleaving model for concurrent `create`

`CreateStringHandler` performs its duplicate check under `mu.RLock`
(lines 163-170), *releases* the lock, and only then takes `mu.Lock` for
the insertion (lines 181-183). The lock structure therefore makes the
handler a sequence of two atomic sections, between which steps of other
requests may be scheduled; the model below runs two `create` calls for the
same value under an explicit schedule of such atomic sections. -/

/-- Program counter of one in-flight `create` call. -/
inductive CreatePhase where
  | beforeCheck : CreatePhase
  | beforeInsert : CreatePhase
  | finished : CreatePhase
deriving DecidableEq

/-- Externally visible outcome of one `create` call. -/
inductive CreateOutcome where
  | createdOk : CreateOutcome
  | duplicate : CreateOutcome
deriving DecidableEq

/-- One in-flight `create` call: its phase and (once finished) outcome. -/
structure CreateThread where
  phase : CreatePhase
  outcome : Option CreateOutcome
deriving DecidableEq

/-- A `create` call that has not started yet. -/
def freshThread : CreateThread :=
  ⟨.beforeCheck, none⟩

/-- Executes the next atomic section of one `create` call for `value`:
the read-locked duplicate check, or the write-locked insertion. -/
def stepCreate (now : Nat) (value : List Char) :
    Store × CreateThread → Store × CreateThread
  | (store, ⟨.beforeCheck, o⟩) =>
    if (mapLookup store (generateSHA256Hash value)).isSome then
      (store, ⟨.finished, some .duplicate⟩)
    else (store, ⟨.beforeInsert, o⟩)
  | (store, ⟨.beforeInsert, _⟩) =>
    let r := newAnalyzedString now value
    (mapInsert store r.ID r, ⟨.finished, some .createdOk⟩)
  | (store, ⟨.finished, o⟩) => (store, ⟨.finished, o⟩)

/-- Runs two concurrent `create` calls for the same value under a schedule:
`true` steps the first caller, `false` the second. -/
def runTwoCreates (now : Nat) (value : List Char) :
    List Bool → Store × CreateThread × CreateThread →
    Store × CreateThread × CreateThread
  | [], st => st
  | b :: rest, (store, t1, t2) =>
    if b then
      let s1 := stepCreate now value (store, t1)
      runTwoCreates now value rest (s1.1, s1.2, t2)
    else
      let s2 := stepCreate now value (store, t2)
      runTwoCreates now value rest (s2.1, t1, s2.2)

/-! ## Claim theorems -/

/-- C1 (counterexample): the query `six word` matches the word-count-name
pattern with a number word of the claimed supported set, yet translation
does not set `word_count` to 6 — the `switch` has no `six` case and falls
into the `default` failure. -/
theorem c1_counterexample :
    ParseNaturalLanguageQuery ("six word".toList) =
      .error (.unsupportedWordCount ("six".toList)) := by
  decide

/-- C1 (amended): when the lower-cased query matches
`(single|one|two|three|four|five|six|seven|eight|nine|ten) word`, the
word-count rule succeeds exactly for the number words `single`/`one`
(value 1) through `five` (value 5); the matched words `six` through `ten`,
although part of the pattern, fail with `UnsupportedWordCount`. -/
theorem c1_wordCount_names (low : List Char) (f : ParsedFilters) (w : List Char)
    (h : scanFirst (findFirstWord numberWordList) low = some w) :
    ((w = "single".toList ∨ w = "one".toList) →
      ruleWordCount low f = .ok { f with word_count := some 1 }) ∧
    (w = "two".toList → ruleWordCount low f = .ok { f with word_count := some 2 }) ∧
    (w = "three".toList → ruleWordCount low f = .ok { f with word_count := some 3 }) ∧
    (w = "four".toList → ruleWordCount low f = .ok { f with word_count := some 4 }) ∧
    (w = "five".toList → ruleWordCount low f = .ok { f with word_count := some 5 }) ∧
    (w ∈ ["six", "seven", "eight", "nine", "ten"].map String.toList →
      ruleWordCount low f = .error (.unsupportedWordCount w)) := by
  refine ⟨?_, ?_, ?_, ?_, ?_, ?_⟩
  · rintro (h1 | h1) <;> subst h1 <;> simp only [ruleWordCount, h] <;>
      rw [if_pos (by decide)]
  · intro h1; subst h1; simp only [ruleWordCount, h]
    rw [if_neg (by decide), if_pos (by decide)]
  · intro h1; subst h1; simp only [ruleWordCount, h]
    rw [if_neg (by decide), if_neg (by decide), if_pos (by decide)]
  · intro h1; subst h1; simp only [ruleWordCount, h]
    rw [if_neg (by decide), if_neg (by decide), if_neg (by decide),
      if_pos (by decide)]
  · intro h1; subst h1; simp only [ruleWordCount, h]
    rw [if_neg (by decide), if_neg (by decide), if_neg (by decide),
      if_neg (by decide), if_pos (by decide)]
  · intro h1
    simp only [List.map, List.mem_cons, List.not_mem_nil, or_false] at h1
    rcases h1 with h1 | h1 | h1 | h1 | h1 <;> subst h1 <;>
      simp only [ruleWordCount, h] <;>
      rw [if_neg (by decide), if_neg (by decide), if_neg (by decide),
        if_neg (by decide), if_neg (by decide)]

/-- C1 (witness): the amended rule at the concrete query `three word`. -/
theorem c1_wordCount_names_witness :
    ruleWordCount ("three word".toList) emptyFilters =
      .ok { emptyFilters with word_count := some 3 } :=
  (c1_wordCount_names ("three word".toList) emptyFilters ("three".toList)
    (by decide)).2.2.1 rfl

/-- C2 (code bug evaluation): the README documents the query
`strings containing the letter z` as supported with result
`{containsCharacter: "z"}`, but the regex requires the verb form
`contains`, so the query parses to nothing and fails as unparseable; a
query that does contain `contains the letter z` yields the documented
predicate set. -/
theorem c2_containing_letter_eval :
    ParseNaturalLanguageQuery ("strings containing the letter z".toList) =
      .error .unparseableQuery ∧
    ParseNaturalLanguageQuery ("strings that contains the letter z".toList) =
      .ok { emptyFilters with contains_character := some ['z'] } := by
  decide

/-- C3 (code bug evaluation): every parameter of the explicit filter
handler is parsed inside the loop over the store, so with an empty store
the invalid value `banana` for `is_palindrome` is never validated and the
handler answers success with no matches and no applied filters, while the
same request against a one-record store is rejected. -/
theorem c3_validation_eval :
    GetFilteredStringsHandler [] { is_palindrome := "banana".toList } =
      .ok ([], emptyFilters) ∧
    GetFilteredStringsHandler
      [⟨"x".toList, "x".toList, ⟨1, false, 1, 1, "h".toList, [('x', 1)]⟩, 0⟩]
      { is_palindrome := "banana".toList } = .error .isPalindromeParam := by
  decide

/-- C4 (code bug evaluation): under the schedule check-check-insert-insert
(possible because the duplicate check holds only the read lock, which is
released before the write lock is taken), two concurrent `create` calls
for the same value `a` both finish as created — the two-succeed outcome
the claim rules out. Under the serialized schedule the second call
observes the duplicate, as claimed. -/
theorem c4_race_eval :
    (let r := runTwoCreates 0 ("a".toList) [true, false, true, false]
      ([], freshThread, freshThread)
     r.2.1.outcome = some .createdOk ∧ r.2.2.outcome = some .createdOk) ∧
    (let r := runTwoCreates 0 ("a".toList) [true, true, false, false]
      ([], freshThread, freshThread)
     r.2.1.outcome = some .createdOk ∧ r.2.2.outcome = some .duplicate) := by
  decide

/-- C6 (counterexample): this query contains both `longer than 10` and
`shorter than 5` as substrings, yet translation succeeds with
`{min_length: 3, max_length: 4}` — the regex only uses its leftmost match,
here `longer than 2`. -/
theorem c6_counterexample :
    strContains ("longer than 2 longer than 10 shorter than 5".toList)
      ("longer than 10".toList) = true ∧
    strContains ("longer than 2 longer than 10 shorter than 5".toList)
      ("shorter than 5".toList) = true ∧
    ParseNaturalLanguageQuery ("longer than 2 longer than 10 shorter than 5".toList) =
      .ok { emptyFilters with min_length := some 3, max_length := some 4 } := by
  decide

/-- C6 (amended): whenever the rules leave both bounds set with
`min_length > max_length`, the final consistency check fails the whole
translation with `ConflictingFilters`; in particular a query whose
leftmost `longer than` match captures 10 and whose leftmost `shorter
than` match captures 5 (such as `strings longer than 10 and shorter than
5`) fails this way. -/
theorem c6_minmax_conflict (q : List Char) (f : ParsedFilters) (a b : Int)
    (h1 : applyRules (stringsToLower q) = .ok f)
    (h2 : f.min_length = some a) (h3 : f.max_length = some b) (h4 : b < a) :
    ParseNaturalLanguageQuery q = .error .conflictingFilters := by
  simp only [ParseNaturalLanguageQuery, h1]
  unfold finalCheck
  rw [if_pos]
  unfold minMaxConflict
  rw [h2, h3]
  simpa using h4

/-- C6 (witness): the amended statement at the specification's example
query `strings longer than 10 and shorter than 5`. -/
theorem c6_minmax_conflict_witness :
    ParseNaturalLanguageQuery ("strings longer than 10 and shorter than 5".toList) =
      .error .conflictingFilters :=
  c6_minmax_conflict ("strings longer than 10 and shorter than 5".toList)
    { emptyFilters with min_length := some 11, max_length := some 4 }
    11 4 (by decide) rfl rfl (by decide)

/-- Lower-casing a string is idempotent. -/
theorem stringsToLower_idem (s : List Char) :
    stringsToLower (stringsToLower s) = stringsToLower s := by
  unfold stringsToLower
  rw [List.map_map]
  exact List.map_congr_left (fun c _ => goToLower_goToLower c)

/-- C10: the translator operates only on the lower-cased query text, so a
query and its lower-cased form translate to exactly the same predicate set
or the same failure. -/
theorem c10_case_invariance (q : List Char) :
    ParseNaturalLanguageQuery (stringsToLower q) = ParseNaturalLanguageQuery q := by
  simp only [ParseNaturalLanguageQuery, stringsToLower_idem]

/-- The two-pointer loop at indices `i < j` succeeds exactly when every
position strictly left of `j` (and at least `i`) agrees with its mirrored
position, provided the fuel dominates the window. -/
theorem palAux_true_iff (l : List Char) :
    ∀ (fuel i j : Nat), j - i ≤ fuel →
      (palAux l fuel i j = true ↔
        ∀ k, i ≤ k → k < j → l.getD k ' ' = l.getD (i + j - k) ' ') := by
  intro fuel
  induction fuel with
  | zero =>
    intro i j hle
    constructor
    · intro _ k hk1 hk2
      exact absurd hk2 (by omega)
    · intro _
      rfl
  | succ n ih =>
    intro i j hle
    rw [palAux]
    by_cases hij : i < j
    · rw [if_pos hij]
      by_cases heq : l.getD i ' ' = l.getD j ' '
      · rw [if_neg (by simpa using heq), ih (i + 1) (j - 1) (by omega)]
        constructor
        · intro hp k hk1 hk2
          rcases eq_or_lt_of_le hk1 with hk | hk
          · rw [← hk, show i + j - i = j from by omega]
            exact heq
          · by_cases hk3 : k < j - 1
            · rw [show i + j - k = (i + 1) + (j - 1) - k from by omega]
              exact hp k (by omega) hk3
            · have hkj : k = j - 1 := by omega
              by_cases hk4 : i + 1 < j - 1
              · have h5 := hp (i + 1) le_rfl hk4
                rw [show (i + 1) + (j - 1) - (i + 1) = j - 1 from by omega] at h5
                rw [hkj, show i + j - (j - 1) = i + 1 from by omega]
                exact h5.symm
              · rw [hkj, show i + j - (j - 1) = i + 1 from by omega,
                  show j - 1 = i + 1 from by omega]
        · intro hp k hk1 hk2
          rw [show (i + 1) + (j - 1) - k = i + j - k from by omega]
          exact hp k (by omega) (by omega)
      · rw [if_pos (by simpa using heq)]
        constructor
        · intro hfalse
          cases hfalse
        · intro hp
          have := hp i le_rfl hij
          rw [show i + j - i = j from by omega] at this
          exact absurd this heq
    · rw [if_neg hij]
      constructor
      · intro _ k hk1 hk2
        exact absurd hk2 (by omega)
      · intro _
        rfl

/-- The full two-pointer pass is equivalent to the list agreeing with its
own reverse. -/
theorem getElem_idx_congr {l : List Char} {i j : Nat} (h : i = j) (hi : i < l.length)
    (hj : j < l.length) : l[i] = l[j] := by
  subst h
  rfl

theorem palAux_full_iff (l : List Char) :
    palAux l l.length 0 (l.length - 1) = true ↔ l = l.reverse := by
  rw [palAux_true_iff l l.length 0 (l.length - 1) (by omega)]
  simp only [Nat.zero_add]
  constructor
  · intro hp
    refine List.ext_getElem (by simp) ?_
    intro i h1 h2
    rw [List.getElem_reverse]
    by_cases hi : i < l.length - 1
    · have hb2 : l.length - 1 - i < l.length := by omega
      have h5 := hp i (by omega) hi
      rw [List.getD_eq_getElem l ' ' h1, List.getD_eq_getElem l ' ' hb2] at h5
      exact h5
    · have hi1 : i = l.length - 1 := by omega
      by_cases hn : l.length - 1 = 0
      · exact getElem_idx_congr (by omega) h1 (by omega)
      · have h5 := hp 0 le_rfl (by omega)
        rw [List.getD_eq_getElem l ' ' (by omega), List.getD_eq_getElem l ' ' (by omega)] at h5
        exact (getElem_idx_congr (show i = l.length - 1 - 0 from by omega) h1 (by omega)).trans
          (h5.symm.trans (getElem_idx_congr (show (0 : Nat) = l.length - 1 - i from by omega)
            (by omega) (by omega)))
  · intro hrev k hk1 hk2
    have hb1 : k < l.length := by omega
    have hb2 : l.length - 1 - k < l.length := by omega
    rw [List.getD_eq_getElem l ' ' hb1, List.getD_eq_getElem l ' ' hb2]
    have hb3 : k < l.reverse.length := by simpa using hb1
    have h5 : l.reverse[k] = l[l.length - 1 - k] := List.getElem_reverse _
    have h6 := List.getElem_of_eq hrev hb1
    exact h6.trans h5

/-- The normalization the specification describes for the palindrome
property: drop every character that is not a letter or digit, then
lower-case the rest. (The source lower-cases first and filters second;
the two agree because lower-casing preserves the class.) -/
def specSkeleton (s : List Char) : List Char :=
  (s.filter isAlnum).map goToLower

/-- The source's filtered sequence coincides with the specification's. -/
theorem filtered_eq_specSkeleton (s : List Char) :
    (stringsToLower s).filter isAlnum = specSkeleton s := by
  unfold stringsToLower specSkeleton
  rw [List.filter_map]
  congr 1
  exact List.filter_congr (fun c _ => isAlnum_goToLower c)

/-- C7: a string's computed `isPalindrome` is true exactly when the
sequence obtained by removing every character that is not a letter or
digit and lower-casing the rest equals its own reverse; strings with no
alphanumeric characters (the empty string among them) are palindromes,
and the specification's example sentence is one. -/
theorem c7_isPalindrome_spec :
    (∀ s : List Char,
      ((analyzeString s).IsPalindrome = true ↔ specSkeleton s = (specSkeleton s).reverse)) ∧
    (∀ s : List Char, (∀ c ∈ s, isAlnum c = false) →
      (analyzeString s).IsPalindrome = true) ∧
    (analyzeString ("A man, a plan, a canal: Panama".toList)).IsPalindrome = true := by
  have hmain : ∀ s : List Char,
      ((analyzeString s).IsPalindrome = true ↔ specSkeleton s = (specSkeleton s).reverse) := by
    intro s
    show isPalindrome s = true ↔ _
    unfold isPalindrome
    rw [filtered_eq_specSkeleton]
    exact palAux_full_iff (specSkeleton s)
  refine ⟨hmain, ?_, ?_⟩
  · intro s hs
    apply (hmain s).mpr
    have hnil : specSkeleton s = [] := by
      unfold specSkeleton
      rw [List.filter_eq_nil_iff.mpr (fun c hc => by simp [hs c hc])]
      rfl
    rw [hnil]
    rfl
  · exact (hmain _).mpr (by decide)

/-- C7 (witness): a string consisting only of non-alphanumeric characters
is a palindrome. -/
theorem c7_isPalindrome_witness :
    (analyzeString ("!?".toList)).IsPalindrome = true :=
  c7_isPalindrome_spec.2.1 ("!?".toList) (by decide)

/-! ### Frequency-map lemmas (C8) -/

/-- Total of all counters in a frequency map. -/
def sumCounts (m : List (Char × Nat)) : Nat :=
  (m.map Prod.snd).sum

theorem sumCounts_bump (m : List (Char × Nat)) (c : Char) :
    sumCounts (bumpCount m c) = sumCounts m + 1 := by
  induction m with
  | nil => rfl
  | cons p rest ih =>
    obtain ⟨k, v⟩ := p
    by_cases h : k = c
    · simp [bumpCount, h, sumCounts]
      omega
    · simp [bumpCount, h, sumCounts] at ih ⊢
      omega

theorem lookup_bump_self (m : List (Char × Nat)) (c : Char) :
    mapLookup (bumpCount m c) c = some ((mapLookup m c).getD 0 + 1) := by
  induction m with
  | nil => simp [bumpCount, mapLookup]
  | cons p rest ih =>
    obtain ⟨k, v⟩ := p
    by_cases h : k = c
    · simp [bumpCount, h, mapLookup]
    · simp [bumpCount, h, mapLookup, ih]

theorem lookup_bump_other (m : List (Char × Nat)) (c c' : Char) (h : c' ≠ c) :
    mapLookup (bumpCount m c) c' = mapLookup m c' := by
  induction m with
  | nil =>
    unfold bumpCount mapLookup
    rw [if_neg (fun he : c = c' => h he.symm)]
    rfl
  | cons p rest ih =>
    obtain ⟨k, v⟩ := p
    unfold bumpCount
    by_cases hk : k = c
    · rw [if_pos hk]
      unfold mapLookup
      have hne : ¬ k = c' := fun he => h (he ▸ hk)
      rw [if_neg hne, if_neg hne]
    · rw [if_neg hk]
      unfold mapLookup
      by_cases hk' : k = c'
      · rw [if_pos hk', if_pos hk']
      · rw [if_neg hk', if_neg hk']
        exact ih

theorem sumCounts_foldl_bump (s : List Char) :
    ∀ m : List (Char × Nat), sumCounts (s.foldl bumpCount m) = sumCounts m + s.length := by
  induction s with
  | nil => intro m; simp
  | cons a rest ih =>
    intro m
    simp only [List.foldl_cons, List.length_cons, ih (bumpCount m a), sumCounts_bump]
    omega

theorem lookup_foldl_bump_mono (s : List Char) :
    ∀ (m : List (Char × Nat)) (c : Char) (k : Nat), mapLookup m c = some k →
      ∃ k', mapLookup (s.foldl bumpCount m) c = some k' ∧ k ≤ k' := by
  induction s with
  | nil => intro m c k h; exact ⟨k, h, le_rfl⟩
  | cons a rest ih =>
    intro m c k h
    simp only [List.foldl_cons]
    by_cases hc : c = a
    · subst hc
      have h1 := lookup_bump_self m c
      rw [h] at h1
      obtain ⟨k', hk', hle⟩ := ih (bumpCount m c) c (k + 1) (by simpa using h1)
      exact ⟨k', hk', by omega⟩
    · have h1 := lookup_bump_other m a c hc
      rw [h] at h1
      exact ih (bumpCount m a) c k h1

theorem lookup_foldl_bump_mem (s : List Char) :
    ∀ (m : List (Char × Nat)) (c : Char), c ∈ s →
      ∃ k, mapLookup (s.foldl bumpCount m) c = some k ∧ 1 ≤ k := by
  induction s with
  | nil => intro m c h; cases h
  | cons a rest ih =>
    intro m c h
    simp only [List.foldl_cons]
    rcases List.mem_cons.mp h with hc | hc
    · subst hc
      have h1 := lookup_bump_self m c
      obtain ⟨k', hk', hle⟩ :=
        lookup_foldl_bump_mono rest (bumpCount m c) c ((mapLookup m c).getD 0 + 1) h1
      exact ⟨k', hk', by omega⟩
    · exact ih (bumpCount m a) c hc

/-- C8: for every string, the counters of the computed character-frequency
map total exactly the computed length (the rune count), and every rune of
the string is present as a key with a count of at least 1 (a count of at
least 1 under `getD 0` in particular forces the key to be present). -/
theorem c8_frequency_completeness (s : List Char) :
    sumCounts ((analyzeString s).CharacterFrequencyMap) = (analyzeString s).Length ∧
    ∀ c ∈ s, (mapLookup ((analyzeString s).CharacterFrequencyMap) c).isSome = true ∧
      1 ≤ (mapLookup ((analyzeString s).CharacterFrequencyMap) c).getD 0 := by
  constructor
  · show sumCounts (getCharacterFrequencyMap s) = calculateLength s
    unfold getCharacterFrequencyMap calculateLength
    rw [sumCounts_foldl_bump s []]
    simp [sumCounts]
  · intro c hc
    obtain ⟨k, hk, h1⟩ := lookup_foldl_bump_mem s [] c hc
    have he : mapLookup ((analyzeString s).CharacterFrequencyMap) c = some k := hk
    rw [he]
    exact ⟨rfl, by simpa using h1⟩

/-- C8 (witness): the completeness statement at the concrete string `aba`
and its rune `a`. -/
theorem c8_frequency_witness :
    (mapLookup ((analyzeString ("aba".toList)).CharacterFrequencyMap) 'a').isSome = true ∧
    1 ≤ (mapLookup ((analyzeString ("aba".toList)).CharacterFrequencyMap) 'a').getD 0 :=
  (c8_frequency_completeness ("aba".toList)).2 'a' (by decide)

/-! ### Association-list lemmas for the store (C5, C9) -/

theorem mapLookup_insert {α β : Type} [DecidableEq α] (m : List (α × β)) (k : α) (v : β)
    (k' : α) :
    mapLookup (mapInsert m k v) k' = if k = k' then some v else mapLookup m k' := by
  induction m with
  | nil =>
    unfold mapInsert mapLookup
    by_cases h : k = k'
    · rw [if_pos h, if_pos h]
    · rw [if_neg h, if_neg h]
      rfl
  | cons p rest ih =>
    obtain ⟨a, b⟩ := p
    unfold mapInsert
    by_cases ha : a = k
    · rw [if_pos ha]
      unfold mapLookup
      by_cases h : k = k'
      · rw [if_pos h, if_pos h]
      · rw [if_neg h, if_neg h, if_neg (ha ▸ h)]
    · rw [if_neg ha]
      unfold mapLookup
      by_cases ha' : a = k'
      · rw [if_pos ha', if_pos ha', if_neg (fun h : k = k' => ha (ha'.trans h.symm))]
      · rw [if_neg ha', if_neg ha']
        exact ih

theorem mem_mapInsert_elim {α β : Type} [DecidableEq α] (m : List (α × β)) (k : α) (v : β)
    (p : α × β) (h : p ∈ mapInsert m k v) : p ∈ m ∨ p = (k, v) := by
  induction m with
  | nil =>
    unfold mapInsert at h
    right
    simpa using h
  | cons q rest ih =>
    obtain ⟨a, b⟩ := q
    unfold mapInsert at h
    by_cases ha : a = k
    · rw [if_pos ha] at h
      rcases List.mem_cons.mp h with h1 | h1
      · right; exact h1
      · left; exact List.mem_cons_of_mem _ h1
    · rw [if_neg ha] at h
      rcases List.mem_cons.mp h with h1 | h1
      · left; exact h1 ▸ List.mem_cons_self _ _
      · rcases ih h1 with h2 | h2
        · left; exact List.mem_cons_of_mem _ h2
        · right; exact h2

theorem mem_keys_mapInsert {α β : Type} [DecidableEq α] (m : List (α × β)) (k : α) (v : β)
    (x : α) :
    x ∈ (mapInsert m k v).map Prod.fst ↔ x ∈ m.map Prod.fst ∨ x = k := by
  induction m with
  | nil =>
    unfold mapInsert
    simp [eq_comm]
  | cons q rest ih =>
    obtain ⟨a, b⟩ := q
    unfold mapInsert
    by_cases ha : a = k
    · rw [if_pos ha]
      subst ha
      simp [eq_comm]
      tauto
    · rw [if_neg ha]
      simp only [List.map_cons, List.mem_cons, ih]
      tauto

theorem nodup_keys_mapInsert {α β : Type} [DecidableEq α] (m : List (α × β)) (k : α) (v : β)
    (h : (m.map Prod.fst).Nodup) : ((mapInsert m k v).map Prod.fst).Nodup := by
  induction m with
  | nil =>
    unfold mapInsert
    simp
  | cons q rest ih =>
    obtain ⟨a, b⟩ := q
    simp only [List.map_cons, List.nodup_cons] at h
    unfold mapInsert
    by_cases ha : a = k
    · rw [if_pos ha]
      simp only [List.map_cons, List.nodup_cons]
      exact ⟨ha ▸ h.1, h.2⟩
    · rw [if_neg ha]
      simp only [List.map_cons, List.nodup_cons]
      refine ⟨fun hmem => ?_, ih h.2⟩
      rcases (mem_keys_mapInsert rest k v a).mp hmem with h1 | h1
      · exact h.1 h1
      · exact ha h1

theorem mapErase_sublist {α β : Type} [DecidableEq α] (m : List (α × β)) (k : α) :
    List.Sublist (mapErase m k) m := by
  induction m with
  | nil => exact List.Sublist.refl []
  | cons q rest ih =>
    obtain ⟨a, b⟩ := q
    unfold mapErase
    by_cases ha : a = k
    · rw [if_pos ha]
      exact List.sublist_cons_self _ _
    · rw [if_neg ha]
      exact List.Sublist.cons₂ _ ih

theorem lookup_some_mem_keys {α β : Type} [DecidableEq α] (m : List (α × β)) (k : α)
    (v : β) (h : mapLookup m k = some v) : k ∈ m.map Prod.fst := by
  induction m with
  | nil => cases h
  | cons q rest ih =>
    obtain ⟨a, b⟩ := q
    unfold mapLookup at h
    by_cases ha : a = k
    · simp [ha]
    · rw [if_neg ha] at h
      exact List.mem_cons_of_mem _ (ih h)

theorem lookup_mapErase_some {α β : Type} [DecidableEq α] (m : List (α × β)) (k : α)
    (hnd : (m.map Prod.fst).Nodup) (k' : α) (r : β)
    (h : mapLookup (mapErase m k) k' = some r) : mapLookup m k' = some r := by
  induction m with
  | nil => exact h
  | cons q rest ih =>
    obtain ⟨a, b⟩ := q
    simp only [List.map_cons, List.nodup_cons] at hnd
    unfold mapErase at h
    unfold mapLookup
    by_cases ha : a = k
    · rw [if_pos ha] at h
      by_cases ha' : a = k'
      · exact absurd (ha' ▸ lookup_some_mem_keys rest k' r h) hnd.1
      · rw [if_neg ha']
        exact h
    · rw [if_neg ha] at h
      unfold mapLookup at h
      by_cases ha' : a = k'
      · rw [if_pos ha'] at h ⊢
        exact h
      · rw [if_neg ha'] at h ⊢
        exact ih hnd.2 h

/-- C5 (amended): whenever `create` succeeds (the value's hash is fresh),
looking the returned id up finds the new record — unconditionally, even
when the value collides with a stored id. Looking the original value up
(literal-id interpretation first, hash interpretation second) finds the
same record provided the value is not itself the literal id of an
already-stored record. -/
theorem c5_roundtrip (now : Nat) (store : Store) (v : List Char)
    (hfresh : mapLookup store (generateSHA256Hash v) = none) :
    (CreateStringHandler now store v).1 = .created (newAnalyzedString now v) ∧
    GetSpecificStringHandler (CreateStringHandler now store v).2
      ((newAnalyzedString now v).ID) = some (newAnalyzedString now v) ∧
    (mapLookup store v = none →
      GetSpecificStringHandler (CreateStringHandler now store v).2 v =
        some (newAnalyzedString now v)) := by
  have hpair : CreateStringHandler now store v =
      (.created (newAnalyzedString now v),
        mapInsert store (newAnalyzedString now v).ID (newAnalyzedString now v)) := by
    simp only [CreateStringHandler, hfresh]
    rfl
  refine ⟨by rw [hpair], ?_, ?_⟩
  · rw [hpair]
    unfold GetSpecificStringHandler
    rw [mapLookup_insert, if_pos rfl]
  · intro hnotid
    rw [hpair]
    unfold GetSpecificStringHandler
    rw [mapLookup_insert]
    by_cases hv : (newAnalyzedString now v).ID = v
    · rw [if_pos hv]
    · rw [if_neg hv, hnotid]
      have h2 : mapLookup (mapInsert store (newAnalyzedString now v).ID
          (newAnalyzedString now v)) (generateSHA256Hash v) =
          some (newAnalyzedString now v) := by
        rw [mapLookup_insert,
          if_pos (show (newAnalyzedString now v).ID = generateSHA256Hash v from rfl)]
      exact h2

/-- C5 (witness): the round-trip at the concrete value `a` on the empty
store, with both the id lookup and the value lookup discharged. -/
theorem c5_roundtrip_witness :
    (CreateStringHandler 0 [] ("a".toList)).1 = .created (newAnalyzedString 0 ("a".toList)) ∧
    GetSpecificStringHandler (CreateStringHandler 0 [] ("a".toList)).2
      ((newAnalyzedString 0 ("a".toList)).ID) = some (newAnalyzedString 0 ("a".toList)) ∧
    GetSpecificStringHandler (CreateStringHandler 0 [] ("a".toList)).2 ("a".toList) =
      some (newAnalyzedString 0 ("a".toList)) :=
  ⟨(c5_roundtrip 0 [] ("a".toList) rfl).1,
   (c5_roundtrip 0 [] ("a".toList) rfl).2.1,
   (c5_roundtrip 0 [] ("a".toList) rfl).2.2 rfl⟩

/-- C5 (counterexample): the value being created is the 64-hex id of the
already-stored record for `a`. Creation succeeds (its own hash is fresh),
but looking the value up afterwards returns the old record for `a` — the
literal-id interpretation wins — not the record just created, whose
`Value` is the hex string itself. -/
theorem c5_counterexample :
    (CreateStringHandler 1 (CreateStringHandler 0 [] ("a".toList)).2
        ("ca978112ca1bbdcafac231b39a23dc4da786eff8147c4e72b9807785afee48bb".toList)).1 ≠
      .conflict ∧
    (GetSpecificStringHandler
        (CreateStringHandler 1 (CreateStringHandler 0 [] ("a".toList)).2
          ("ca978112ca1bbdcafac231b39a23dc4da786eff8147c4e72b9807785afee48bb".toList)).2
        ("ca978112ca1bbdcafac231b39a23dc4da786eff8147c4e72b9807785afee48bb".toList)).map
      AnalyzedString.Value = some ("a".toList) := by
  decide

/-- The store invariant of the specification: keys are pairwise distinct,
every record sits under its own `ID`, and that `ID` is the SHA-256 hex
digest of the record's `Value`. -/
def StoreInv (store : Store) : Prop :=
  (store.map Prod.fst).Nodup ∧
  ∀ p ∈ store, p.1 = p.2.ID ∧ p.2.ID = generateSHA256Hash p.2.Value

instance (store : Store) : Decidable (StoreInv store) :=
  inferInstanceAs (Decidable (_ ∧ _))

theorem storeInv_mapErase (store : Store) (hinv : StoreInv store) (k : List Char) :
    StoreInv (mapErase store k) ∧
    ∀ k' r, mapLookup (mapErase store k) k' = some r → mapLookup store k' = some r := by
  obtain ⟨hnd, hrec⟩ := hinv
  have hsub := mapErase_sublist store k
  refine ⟨⟨List.Nodup.sublist (List.Sublist.map Prod.fst hsub) hnd, ?_⟩, ?_⟩
  · intro p hp
    exact hrec p (hsub.subset hp)
  · intro k' r h
    exact lookup_mapErase_some store k hnd k' r h

/-- C9: every mutation preserves the store invariant, and mutations only
insert or remove whole records — `create` keeps every previously stored
record unchanged, and `delete` returns only records that were already
stored. (The lookup handler returns no store at all, so it mutates
nothing.) -/
theorem c9_store_invariant (store : Store) (hinv : StoreInv store) :
    (∀ now v, StoreInv (CreateStringHandler now store v).2 ∧
      ∀ k r, mapLookup store k = some r →
        mapLookup (CreateStringHandler now store v).2 k = some r) ∧
    (∀ tok, StoreInv (DeleteStringHandler store tok).2 ∧
      ∀ k r, mapLookup (DeleteStringHandler store tok).2 k = some r →
        mapLookup store k = some r) := by
  obtain ⟨hnd, hrec⟩ := hinv
  constructor
  · intro now v
    by_cases hex : (mapLookup store (generateSHA256Hash v)).isSome = true
    · have hstore : (CreateStringHandler now store v).2 = store := by
        simp [CreateStringHandler, hex]
      rw [hstore]
      exact ⟨⟨hnd, hrec⟩, fun k r h => h⟩
    · have hstore : (CreateStringHandler now store v).2 =
          mapInsert store (newAnalyzedString now v).ID (newAnalyzedString now v) := by
        simp [CreateStringHandler, hex]
      rw [hstore]
      refine ⟨⟨nodup_keys_mapInsert store _ _ hnd, ?_⟩, ?_⟩
      · intro p hp
        rcases mem_mapInsert_elim store _ _ p hp with h1 | h1
        · exact hrec p h1
        · rw [h1]
          exact ⟨rfl, rfl⟩
      · intro k r h
        rw [mapLookup_insert]
        by_cases hk : (newAnalyzedString now v).ID = k
        · exfalso
          apply hex
          rw [← hk] at h
          have h2 : mapLookup store (generateSHA256Hash v) = some r := h
          rw [h2]
          rfl
        · rw [if_neg hk]
          exact h
  · intro tok
    by_cases h1 : (mapLookup store tok).isSome = true
    · have hst : (DeleteStringHandler store tok).2 = mapErase store tok := by
        simp [DeleteStringHandler, h1]
      rw [hst]
      exact storeInv_mapErase store ⟨hnd, hrec⟩ tok
    · by_cases h2 : (mapLookup store (generateSHA256Hash tok)).isSome = true
      · have hst : (DeleteStringHandler store tok).2 =
            mapErase store (generateSHA256Hash tok) := by
          simp [DeleteStringHandler, h1, h2]
        rw [hst]
        exact storeInv_mapErase store ⟨hnd, hrec⟩ (generateSHA256Hash tok)
      · have hst : (DeleteStringHandler store tok).2 = store := by
          simp [DeleteStringHandler, h1, h2]
        rw [hst]
        exact ⟨⟨hnd, hrec⟩, fun k r h => h⟩

/-- C9 (witness): the invariant holds after creating `a` on the empty
store (whose invariant is trivial). -/
theorem c9_store_invariant_witness :
    StoreInv (CreateStringHandler 0 [] ("a".toList)).2 :=
  (((c9_store_invariant [] (by simp [StoreInv])).1) 0 ("a".toList)).1

end StringAnalyzer
